import Mathlib

/-!
Verification of the wiki content extraction and location-to-act classification
engine of the bg3-assistant repository (src/services/bg3WikiApi.ts), against its
natural-language specification.

The TypeScript source is shallowly embedded: strings are `List Char` under the
hood (wrapped in `String` at the API boundary), the hand-rolled regular
expressions of the source are embedded as the deterministic scanning procedures
they denote (each regex in the source is simple enough that its backtracking
behaviour is deterministic; the embedding of each one is justified next to its
definition), and loops are embedded as fuel-indexed structural recursions with
fuel at least the length of the scanned list, so that every definition is
executable by kernel reduction.
-/

set_option maxRecDepth 8000

/-! ## Character utilities (JS semantics, ASCII fragment) -/

/-- Left brace character, written via its code point. -/
def lbrace : Char := Char.ofNat 123

/-- Right brace character, written via its code point. -/
def rbrace : Char := Char.ofNat 125

/-- Apostrophe character, written via its code point. -/
def apoc : Char := Char.ofNat 39

/-- One-character apostrophe string, used to build wiki location names. -/
def aposS : String := String.mk [apoc]

/-- JS `\s` / `trim` whitespace, restricted to the ASCII characters that occur
in the data handled by the scraper. -/
def isWsJs (c : Char) : Bool :=
  c = ' ' || c = '\t' || c = '\n' || c = '\r' || c = Char.ofNat 11 || c = Char.ofNat 12

/-- ASCII lowercase conversion; JS `toLowerCase` restricted to A-Z. -/
def toLowerJs (c : Char) : Char :=
  if 65 ≤ c.toNat ∧ c.toNat ≤ 90 then Char.ofNat (c.toNat + 32) else c

/-- ASCII letter test (regex `[a-zA-Z]`). -/
def isAsciiLetter (c : Char) : Bool :=
  (97 ≤ c.toNat ∧ c.toNat ≤ 122) || (65 ≤ c.toNat ∧ c.toNat ≤ 90)

/-- ASCII digit test. -/
def isDigitC (c : Char) : Bool := 48 ≤ c.toNat ∧ c.toNat ≤ 57

/-- JS regex word character `\w` = `[A-Za-z0-9_]`. -/
def isWordC (c : Char) : Bool := isAsciiLetter c || isDigitC c || c = '_'

/-- Newline test, for the `\n+` replacement step of `cleanWikiText`. -/
def isNl (c : Char) : Bool := c = '\n'

/-! ## Trimming (JS `String.prototype.trim`) -/

/-- Drop leading whitespace. -/
def trimL (l : List Char) : List Char := l.dropWhile isWsJs

/-- Drop trailing whitespace. -/
def trimR (l : List Char) : List Char := (l.reverse.dropWhile isWsJs).reverse

/-- JS `trim`: drop whitespace from both ends. -/
def trimC (l : List Char) : List Char := trimR (trimL l)

/-- String-level `trim`. -/
def trimS (s : String) : String := String.mk (trimC s.data)

/-! ## Run collapsing (JS `replace(/\s+/g, ...)` and `replace(/\n+/g, ...)`) -/

/-- State machine replacing every maximal run of `p`-characters by the single
character `rep`; the boolean records whether the previous character was in a
run.  This is the denotation of a global regex replace of `X+` by a
one-character string. -/
def collapseGo (p : Char → Bool) (rep : Char) : Bool → List Char → List Char
  | _, [] => []
  | inRun, c :: rest =>
    if p c then
      if inRun then collapseGo p rep true rest
      else rep :: collapseGo p rep true rest
    else c :: collapseGo p rep false rest

/-- Replace every maximal run of `p`-characters by `rep`. -/
def collapseRuns (p : Char → Bool) (rep : Char) (l : List Char) : List Char :=
  collapseGo p rep false l

/-! ## HTML comment removal (`removeHTMLComments`, source lines 547-551)

JS: `text.replace(/<!--[\s\S]*?-->/g, '').trim()`.  The lazy `[\s\S]*?` means a
comment opened by the leftmost `<!--` is closed by the first following `-->`;
if no `-->` follows, there is no match at this position and (since a later
`<!--` cannot start inside the literal `!--`) scanning resumes after it. -/

/-- Find the first `-->` and return the suffix after it. -/
def dropToClose : List Char → Option (List Char)
  | [] => none
  | c :: rest =>
    if c = '-' ∧ rest.take 2 = ['-', '>'] then some (rest.drop 2) else dropToClose rest

/-- One fuel unit per scanned position; fuel `≥` length always suffices. -/
def remCommentsGo : Nat → List Char → List Char
  | 0, l => l
  | _ + 1, [] => []
  | f + 1, c :: rest =>
    if c = '<' ∧ rest.take 3 = ['!', '-', '-'] then
      match dropToClose (rest.drop 3) with
      | some rest2 => remCommentsGo f rest2
      | none => c :: '!' :: '-' :: '-' :: remCommentsGo f (rest.drop 3)
    else c :: remCommentsGo f rest

/-- `removeHTMLComments` from the source: remove comments, then trim. -/
def removeHTMLComments (l : List Char) : List Char := trimC (remCommentsGo l.length l)

/-! ## HTML tag removal (`replace(/<[^>]+>/g, '')`)

A match is a `<`, a nonempty run of non-`>` characters, and the next `>`;
at a `<` immediately followed by `>` (or with no later `>`) there is no match
and scanning advances one character. -/

/-- Remove `<...>` tags, one fuel unit per scanned position. -/
def remTagsGo : Nat → List Char → List Char
  | 0, l => l
  | _ + 1, [] => []
  | f + 1, c :: rest =>
    if c = '<' then
      let run := rest.takeWhile (fun d => !(d = '>'))
      let rest2 := rest.dropWhile (fun d => !(d = '>'))
      if run.isEmpty = false ∧ rest2.isEmpty = false then remTagsGo f (rest2.drop 1)
      else c :: remTagsGo f rest
    else c :: remTagsGo f rest

/-- Tag removal at the natural fuel. -/
def remTags (l : List Char) : List Char := remTagsGo l.length l

/-! ## Wiki link resolution (`replace(/\[\[([^\]]+)\]\]/g, ...)`)

The replacement keeps the last `|`-separated segment of the captured group
(`parts[parts.length - 1]`).  The group `[^\]]+` cannot contain `]`, so the
only viable group at a `[[` is the maximal run of non-`]` characters, which
must be followed by `]]`; otherwise scanning advances one character. -/

/-- Last `|`-separated segment of a list (JS `split('|')` last element). -/
def lastPipeSeg (l : List Char) : List Char :=
  (l.reverse.takeWhile (fun c => !(c = '|'))).reverse

/-- Resolve `[[Target|Display]]` / `[[Target]]` links, one fuel unit per
scanned position. -/
def linksGo : Nat → List Char → List Char
  | 0, l => l
  | _ + 1, [] => []
  | f + 1, c :: rest =>
    if c = '[' ∧ rest.take 1 = ['['] then
      let rest2 := rest.drop 1
      let run := rest2.takeWhile (fun d => !(d = ']'))
      let rest3 := rest2.dropWhile (fun d => !(d = ']'))
      if run.isEmpty = false ∧ rest3.take 2 = [']', ']'] then
        lastPipeSeg run ++ linksGo f (rest3.drop 2)
      else c :: linksGo f rest
    else c :: linksGo f rest

/-- Link resolution at the natural fuel. -/
def linksApply (l : List Char) : List Char := linksGo l.length l

/-! ## `cleanWikiText` (source lines 675-703) -/

/-- The text normalizer: trim, remove HTML comments, strip HTML tags, resolve
wiki links, collapse newlines then all whitespace runs to single spaces, trim.
Template calls are deliberately preserved. -/
def cleanCore (l : List Char) : List Char :=
  if l.isEmpty then []
  else
    trimC (collapseRuns isWsJs ' '
      (collapseRuns isNl ' '
        (linksApply (remTags (removeHTMLComments (trimC l))))))

/-- String-level `cleanWikiText`. -/
def cleanWikiText (s : String) : String := String.mk (cleanCore s.data)

/-! ## Field extraction (`extractFieldValue`, source lines 593-671)

The field-start pattern is built from the field name: internal whitespace runs
become `[\s_]+`, and the whole pattern `\|\s*NAME\s*=` is matched
case-insensitively at the leftmost possible position.  Since every name token
starts with a letter or digit, the greedy `\s*` / `[\s_]+` pieces are
deterministic. -/

/-- Split a field name into its whitespace-separated tokens. -/
def splitTokensGo : Nat → List Char → List (List Char)
  | 0, _ => []
  | _ + 1, [] => []
  | f + 1, c :: rest =>
    if isWsJs c then splitTokensGo f rest
    else
      (c :: rest.takeWhile (fun d => !(isWsJs d))) ::
        splitTokensGo f (rest.dropWhile (fun d => !(isWsJs d)))

/-- Whitespace-token split at the natural fuel. -/
def splitWsToks (l : List Char) : List (List Char) := splitTokensGo l.length l

/-- Case-insensitive literal match returning the remainder on success. -/
def matchCI : List Char → List Char → Option (List Char)
  | [], l => some l
  | _ :: _, [] => none
  | p :: ps, c :: rest => if toLowerJs p = toLowerJs c then matchCI ps rest else none

/-- Match `[\s_]+` (at least one space-or-underscore) and return the rest. -/
def matchSeps (l : List Char) : Option (List Char) :=
  let run := l.takeWhile (fun c => isWsJs c || c = '_')
  if run.isEmpty then none else some (l.dropWhile (fun c => isWsJs c || c = '_'))

/-- Match the token list with `[\s_]+` separators between tokens. -/
def matchToks : List (List Char) → List Char → Option (List Char)
  | [], l => some l
  | [t], l => matchCI t l
  | t :: ts, l => (matchCI t l).bind (fun l1 => (matchSeps l1).bind (matchToks ts))

/-- Try the field-start pattern `\|\s*NAME\s*=` at the head of `l`; on success
return the remainder after the `=`. -/
def tryFieldStart (toks : List (List Char)) (l : List Char) : Option (List Char) :=
  match l with
  | '|' :: r =>
    match matchToks toks (r.dropWhile isWsJs) with
    | some r2 =>
      match r2.dropWhile isWsJs with
      | '=' :: r4 => some r4
      | _ => none
    | none => none
  | _ => none

/-- Leftmost occurrence of the field-start pattern. -/
def findFieldStart (toks : List (List Char)) : List Char → Option (List Char)
  | [] => none
  | c :: rest =>
    match tryFieldStart toks (c :: rest) with
    | some r => some r
    | none => findFieldStart toks rest

/-- The sibling-field lookahead `/^\|\s+[a-zA-Z_][a-zA-Z0-9_\s]*\s*=/` of the
value scan (source line 659).  Note the mandatory whitespace `\s+` after the
pipe.  Since `=` is outside the character class `[a-zA-Z0-9_\s]`, the regex
matches exactly when the character after the maximal class run is `=`. -/
def isFieldSep (l : List Char) : Bool :=
  match l with
  | '|' :: r =>
    if (r.takeWhile isWsJs).isEmpty then false
    else
      match r.dropWhile isWsJs with
      | c :: r2 =>
        if isAsciiLetter c || c = '_' then
          match r2.dropWhile (fun d => isWordC d || isWsJs d) with
          | '=' :: _ => true
          | _ => false
        else false
      | [] => false
  | _ => false

/-- The character-by-character value scan of `extractFieldValue` (source lines
621-668): `{{` opens a nested template only when at the start of the value or
preceded by newline, space or pipe; `}}` closes a nested template at positive
depth and ends the value at depth 0; a depth-0 pipe ends the value only when
`isFieldSep` accepts the lookahead.  Returns the scanned value prefix. -/
def scanValue : Nat → Option Char → Nat → List Char → List Char
  | 0, _, _, l => l
  | _ + 1, _, _, [] => []
  | f + 1, prev, depth, c :: rest =>
    if c = lbrace ∧ rest.take 1 = [lbrace] ∧
        (prev = none ∨ prev = some '\n' ∨ prev = some ' ' ∨ prev = some '|') then
      lbrace :: lbrace :: scanValue f (some lbrace) (depth + 1) (rest.drop 1)
    else if c = rbrace ∧ rest.take 1 = [rbrace] then
      if depth > 0 then rbrace :: rbrace :: scanValue f (some rbrace) (depth - 1) (rest.drop 1)
      else []
    else if c = '|' ∧ depth = 0 ∧ isFieldSep (c :: rest) then []
    else c :: scanValue f (some c) depth rest

/-- `extractFieldValue(content, fieldName)`: locate `\|\s*NAME\s*=`, scan the
value with the nested-template depth counter, trim.  `none` when the field
start does not occur. -/
def extractFieldValue (content fieldName : String) : Option String :=
  match findFieldStart (splitWsToks fieldName.data) content.data with
  | some rest => some (String.mk (trimC (scanValue rest.length none 0 rest)))
  | none => none

/-! ## Simple field capture (source lines 561-588)

`parseWikiContent` extracts `rarity`, `uuid` and `description` with the regex
`/\|\s*NAME\s*=\s*([^\n|}]+)/i`, not with `extractFieldValue`.  The capture
group needs at least one character outside `{newline, pipe, closing brace}`;
when the character after the whitespace run following `=` is excluded, the
engine backtracks the `\s*` one character at a time, so the capture may start
inside that whitespace run; if no start works, the whole pattern fails at this
position and the engine tries later positions. -/

/-- Characters excluded from the capture class `[^\n|}]`. -/
def isBadValChar (c : Char) : Bool := c = '\n' || c = '|' || c = rbrace

/-- Backtracking choice of the capture start: first argument is the reversed
whitespace run consumed by `\s*`, second is the text after it.  Try the
greediest split first, then move the start left one character at a time. -/
def btCapture : List Char → List Char → Option (List Char)
  | [], m =>
    match m with
    | c :: _ =>
      if isBadValChar c then none else some (m.takeWhile (fun d => !(isBadValChar d)))
    | [] => none
  | w :: wrev2, m =>
    match m with
    | c :: _ =>
      if isBadValChar c then btCapture wrev2 (w :: m)
      else some (m.takeWhile (fun d => !(isBadValChar d)))
    | [] => btCapture wrev2 (w :: m)

/-- Try the simple-capture pattern at the head of `l`. -/
def trySimpleAt (name : List Char) (l : List Char) : Option (List Char) :=
  match l with
  | '|' :: r =>
    match matchCI name (r.dropWhile isWsJs) with
    | some r2 =>
      match r2.dropWhile isWsJs with
      | '=' :: r4 =>
        btCapture (r4.takeWhile isWsJs).reverse (r4.dropWhile isWsJs)
      | _ => none
    | none => none
  | _ => none

/-- Leftmost successful simple capture. -/
def findSimple (name : List Char) : List Char → Option (List Char)
  | [] => none
  | c :: rest =>
    match trySimpleAt name (c :: rest) with
    | some cap => some cap
    | none => findSimple name rest

/-! ## Per-field cleanup of the simple captures (source lines 564-587) -/

/-- Remove every run of two or more closing braces (`replace(/}}+/g, '')`). -/
def remBraceRunsGo : Nat → List Char → List Char
  | 0, l => l
  | _ + 1, [] => []
  | f + 1, c :: rest =>
    if c = rbrace ∧ rest.take 1 = [rbrace] then
      remBraceRunsGo f (rest.dropWhile (fun d => d = rbrace))
    else c :: remBraceRunsGo f rest

/-- Brace-run removal at the natural fuel. -/
def remBraceRuns (l : List Char) : List Char := remBraceRunsGo l.length l

/-- Cleanup applied to the `rarity` and `uuid` captures: trim, remove HTML
comments (which trims again), remove `}}` runs, trim. -/
def simpleFieldClean (cap : List Char) : List Char :=
  trimC (remBraceRuns (removeHTMLComments (trimC cap)))

/-- Cleanup applied to the `description` capture: as `simpleFieldClean`, then
additionally strip HTML tags and trim. -/
def descFieldClean (cap : List Char) : List Char :=
  trimC (remTags (simpleFieldClean cap))

/-! ## Location entries (source lines 705-795) -/

/-- JS truthiness of a nullable string: `null`/`undefined` and `""` are falsy. -/
def optTruthy : Option String → Bool
  | some s => !(s == "")
  | none => false

/-- JS `a || b` on nullable strings. -/
def jsOrStr (a b : Option String) : Option String :=
  match a with
  | some s => if s == "" then b else some s
  | none => b

/-- Replace whitespace runs by one underscore (`replace(/\s+/g, '_')`). -/
def replaceWsUnderscore (l : List Char) : List Char := collapseRuns isWsJs '_' l

/-- `extractWithVariations`: try the field name, then its underscored form,
then its trimmed form, with JS `||` semantics (an empty-string result is
discarded). -/
def extractWithVariations (content fieldName : String) : Option String :=
  jsOrStr (extractFieldValue content fieldName)
    (jsOrStr (extractFieldValue content (String.mk (replaceWsUnderscore fieldName.data)))
      (jsOrStr (extractFieldValue content (trimS fieldName)) none))

/-- One "where to find" slot: cleaned name part and cleaned detail part. -/
structure LocEntry where
  lname : Option String
  detail : Option String
deriving DecidableEq

/-- Build an entry from the raw extraction results, cleaning truthy values. -/
def mkEntry (nm dt : Option String) : LocEntry :=
  { lname := if optTruthy nm then some (cleanWikiText (nm.getD "")) else none
    detail := if optTruthy dt then some (cleanWikiText (dt.getD "")) else none }

/-- Did index `i` produce any numbered location field? -/
def foundAt (content : String) (i : Nat) : Bool :=
  optTruthy (extractWithVariations content ("where to find location" ++ toString i)) ||
  optTruthy (extractWithVariations content ("where to find" ++ toString i))

/-- The look-ahead miss counter of the numbered scan: walk the given indices,
reset to 0 and stop at the first hit, otherwise count each miss. -/
def aheadMisses (content : String) : List Nat → Nat → Nat
  | [], cm => cm
  | j :: rest, cm => if foundAt content j then 0 else aheadMisses content rest (cm + 1)

/-- Indices inspected by the look-ahead at a missing index `i`:
`i+1 .. min (i+3) 20`. -/
def checkList (i : Nat) : List Nat := [i + 1, i + 2, i + 3].filter (fun j => j ≤ 20)

/-- The numbered-variant scan (source lines 733-768): indices 2..20, pushing an
entry per index with a hit, and at a missing index stopping the whole scan when
the three following indices all miss. -/
def scanNumbered (content : String) : Nat → Nat → List LocEntry
  | 0, _ => []
  | f + 1, idx =>
    if idx > 20 then []
    else
      let nm := extractWithVariations content ("where to find location" ++ toString idx)
      let dt := extractWithVariations content ("where to find" ++ toString idx)
      if optTruthy nm || optTruthy dt then
        mkEntry nm dt :: scanNumbered content f (idx + 1)
      else if aheadMisses content (checkList idx) 0 ≥ 3 then []
      else scanNumbered content f (idx + 1)

/-- Rendering of one entry: `name - detail`, or whichever part is truthy. -/
def renderEntry (e : LocEntry) : String :=
  if optTruthy e.lname && optTruthy e.detail then
    e.lname.getD "" ++ " - " ++ e.detail.getD ""
  else if optTruthy e.lname then e.lname.getD ""
  else if optTruthy e.detail then e.detail.getD ""
  else ""

/-- JS `Array.prototype.join(' | ')`. -/
def joinPipeSep : List String → String
  | [] => ""
  | [s] => s
  | s :: rest => s ++ " | " ++ joinPipeSep rest

/-- All location entries of a page: the base slot, the numbered slots, and the
generic `location` field as a fallback when nothing else was found. -/
def locationEntriesOf (content : String) : List LocEntry :=
  let baseName := extractWithVariations content "where to find location"
  let baseDetail := extractWithVariations content "where to find"
  let base :=
    if optTruthy baseName || optTruthy baseDetail then [mkEntry baseName baseDetail] else []
  let entries := base ++ scanNumbered content 19 2
  if entries.isEmpty then
    match extractFieldValue content "location" with
    | some s => if s == "" then [] else [{ lname := none, detail := some (cleanWikiText s) }]
    | none => []
  else entries

/-! ## `parseWikiContent` (source lines 557-798) -/

/-- The structured item record built from raw markup (`WikiItem` with the
fields the parser can set; `act` is set only by the asynchronous callers). -/
structure WikiItem where
  name : String
  rarity : Option String
  uuid : Option String
  description : Option String
  where_to_find : Option String
deriving DecidableEq

/-- `parseWikiContent(content, title)`: the name is always the given title;
`rarity`, `uuid`, `description` come from the simple captures with their
per-field cleanup; `where_to_find` is the joined rendering of the location
entries, set only when at least one entry exists. -/
def parseWikiContent (content title : String) : WikiItem :=
  let entries := locationEntriesOf content
  { name := title
    rarity := (findSimple "rarity".data content.data).map (fun cap => String.mk (simpleFieldClean cap))
    uuid := (findSimple "uuid".data content.data).map (fun cap => String.mk (simpleFieldClean cap))
    description := (findSimple "description".data content.data).map (fun cap => String.mk (descFieldClean cap))
    where_to_find :=
      if entries.isEmpty then none
      else some (joinPipeSep ((entries.map renderEntry).filter (fun p => !(p == "")))) }

/-! ## Item classifier (`isEquippableItem`, source lines 59-123) -/

/-- Case-insensitive prefix test. -/
def startsWithCI (needle l : List Char) : Bool := (matchCI needle l).isSome

/-- Does `p` hold of some suffix of the list (i.e. at some position)? -/
def anySuffix (p : List Char → Bool) : List Char → Bool
  | [] => p []
  | c :: rest => p (c :: rest) || anySuffix p rest

/-- Template pattern `\{\{\s*PFX` at the head of `l`. -/
def tmplAt (pfx : List Char) (l : List Char) : Bool :=
  match l with
  | a :: b :: rest =>
    if a = lbrace ∧ b = lbrace then startsWithCI pfx (rest.dropWhile isWsJs) else false
  | _ => false

/-- The thirteen item-template prefixes of the source. -/
def itemTemplatePfxs : List String :=
  ["weapon", "item", "armor", "helmet", "boot", "glove", "ring", "amulet", "cloak",
   "shield", "accessory", "clothing", "robe"]

/-- Does the markup contain an item-template opening? -/
def hasItemTemplate (content : String) : Bool :=
  itemTemplatePfxs.any (fun p => anySuffix (tmplAt p.data) content.data)

/-- Category pattern `\[\[category:\s*NEEDLE` at the head of `l`.  The optional
plural `s?` of the source patterns is dropped from the needle since an optional
trailing atom never affects whether the pattern matches. -/
def catAt (needle : List Char) (l : List Char) : Bool :=
  match matchCI "[[category:".data l with
  | some r => startsWithCI needle (r.dropWhile isWsJs)
  | none => false

/-- The twelve item-category needles of the source, with the optional plural
`s` removed. -/
def itemCategoryNeedles : List String :=
  ["item", "weapon", "armor", "equipment", "accessorie", "ring", "amulet", "helmet",
   "boot", "glove", "shield", "cloak"]

/-- Does the markup contain an item-category declaration? -/
def hasItemCategory (content : String) : Bool :=
  itemCategoryNeedles.any (fun p => anySuffix (catAt p.data) content.data)

/-- Field pattern `\|\s*NAME\s*=` at the head of `l`. -/
def pipeFieldAt (name : List Char) (l : List Char) : Bool :=
  match l with
  | '|' :: r =>
    match matchCI name (r.dropWhile isWsJs) with
    | some r2 =>
      match r2.dropWhile isWsJs with
      | '=' :: _ => true
      | _ => false
    | none => false
  | _ => false

/-- Does the markup contain the field `NAME`? -/
def hasPipeField (content name : String) : Bool :=
  anySuffix (pipeFieldAt name.data) content.data

/-- `uuid=` field presence. -/
def hasUuidField (content : String) : Bool := hasPipeField content "uuid"

/-- `uid=` field presence. -/
def hasUidField (content : String) : Bool := hasPipeField content "uid"

/-- Presence of one of the item-indicating fields
`rarity, damage, enchantment, type, category`. -/
def hasItemFields (content : String) : Bool :=
  ["rarity", "damage", "enchantment", "type", "category"].any (hasPipeField content)

/-- `isEquippableItem(content)`: false on empty or whitespace-only markup,
otherwise the disjunction of the three heuristics. -/
def isEquippableItem (content : String) : Bool :=
  if trimS content = "" then false
  else
    hasItemTemplate content || hasItemCategory content ||
      ((hasUuidField content || hasUidField content) && hasItemFields content)

/-! ## Location-name extraction (`extractLocationNames`, source lines 278-329) -/

/-- JS `split(/[|,;]/)` followed by `map(trim)`.  One fuel unit per character;
the fuel-0 arm flushes what remains so the natural fuel gives the exact
semantics. -/
def splitSepsGo : Nat → List Char → List Char → List (List Char)
  | 0, acc, l => [acc.reverse ++ l]
  | _ + 1, acc, [] => [acc.reverse]
  | f + 1, acc, c :: rest =>
    if c = '|' || c = ',' || c = ';' then acc.reverse :: splitSepsGo f [] rest
    else splitSepsGo f (c :: acc) rest

/-- Split a location text at pipes, commas and semicolons and trim each part. -/
def splitParts (l : List Char) : List (List Char) :=
  (splitSepsGo l.length [] l).map trimC

/-- One alternative of pattern 1 at a candidate group end:
`\s*[-:]\s*`, `\s+in\s+` or `\s+at\s+` (case-insensitive). -/
def p1WordAlt (w : String) (d : List Char) : Bool :=
  if (d.takeWhile isWsJs).isEmpty then false
  else
    match matchCI w.data (d.dropWhile isWsJs) with
    | some r => !(r.takeWhile isWsJs).isEmpty
    | none => false

/-- Does one of the pattern-1 alternatives match at `d`? -/
def p1AltAt (d : List Char) : Bool :=
  (match d.dropWhile isWsJs with
   | c :: _ => c = '-' || c = ':'
   | [] => false) ||
  p1WordAlt "in" d || p1WordAlt "at" d

/-- Pattern 1, `/^([^-:]+?)(?:\s*[-:]\s*|(?:\s+in\s+|\s+at\s+))/i`: the lazy
group grows one character at a time over non-`-`/`:` characters, testing the
alternatives after each growth step; the first success yields the group. -/
def p1Go : List Char → List Char → Option (List Char)
  | _, [] => none
  | taken, c :: rest =>
    if c = '-' || c = ':' then none
    else if p1AltAt rest then some (taken ++ [c])
    else p1Go (taken ++ [c]) rest

/-- Pattern-1 match result (`match[1]`, untrimmed). -/
def pattern1Match (part : List Char) : Option (List Char) := p1Go [] part

/-- Terminator class `(?:\s|$|,|\.|;)` of pattern 2. -/
def p2Term (l : List Char) : Bool :=
  match l with
  | [] => true
  | c :: _ => isWsJs c || c = ',' || c = '.' || c = ';'

/-- Character class `[a-zA-Z\s]` of the pattern-2 lazy group. -/
def p2ClassChar (c : Char) : Bool := isAsciiLetter c || isWsJs c

/-- Lazy growth of the pattern-2 group tail: consume class characters one at a
time, accepting as soon as the terminator follows. -/
def p2LazyGo : List Char → List Char → Option (List Char)
  | _, [] => none
  | taken, c :: rest =>
    if p2ClassChar c then
      if p2Term rest then some (taken ++ [c]) else p2LazyGo (taken ++ [c]) rest
    else none

/-- Continuation of pattern 2 after a keyword:
`\s+([A-Z][a-zA-Z\s]+?)(?:\s|$|,|\.|;)` with the `i` flag, so `[A-Z]` is any
letter.  Returns `inMatch[2]`. -/
def p2Cont (m : List Char) : Option (List Char) :=
  if (m.takeWhile isWsJs).isEmpty then none
  else
    match m.dropWhile isWsJs with
    | c0 :: m2 => if isAsciiLetter c0 then (p2LazyGo [] m2).map (fun g => c0 :: g) else none
    | [] => none

/-- The pattern-2 keywords in their alternation order. -/
def p2Kws : List String := ["in", "at", "within", "inside", "near", "around"]

/-- Try each keyword (in alternation order) at a position, backtracking to the
next keyword when the continuation fails. -/
def p2TryKws : List String → List Char → Option (List Char)
  | [], _ => none
  | kw :: kws, l =>
    match matchCI kw.data l with
    | some rem =>
      match p2Cont rem with
      | some g => some g
      | none => p2TryKws kws l
    | none => p2TryKws kws l

/-- Pattern 2 scan: leftmost position with a word boundary before it where a
keyword plus continuation matches. -/
def p2Go : Option Char → List Char → Option (List Char)
  | _, [] => none
  | prev, c :: rest =>
    let boundary := match prev with | none => true | some pc => !(isWordC pc)
    if boundary then
      match p2TryKws p2Kws (c :: rest) with
      | some g => some g
      | none => p2Go (some c) rest
    else p2Go (some c) rest

/-- Pattern-2 match result (`inMatch[2]`, untrimmed). -/
def pattern2Match (part : List Char) : Option (List Char) := p2Go none part

/-- The filler words removed by pattern 3, in alternation order. -/
def fillerWords : List String :=
  ["found", "located", "obtained", "acquired", "purchased", "sold", "dropped", "rewarded"]

/-- Try each filler word at a position, requiring a word boundary after it;
returns the last character of the matched word and the remainder. -/
def tryFiller : List String → List Char → Option (Char × List Char)
  | [], _ => none
  | w :: ws, l =>
    match matchCI w.data l with
    | some rem =>
      match rem with
      | [] => some (w.data.getLastD 'x', rem)
      | c :: _ =>
        if isWordC c then tryFiller ws l else some (w.data.getLastD 'x', rem)
    | none => tryFiller ws l

/-- Global removal of `\b`-delimited filler words; the previous character (for
the leading boundary) is tracked through deletions using the original text. -/
def remFillersGo : Nat → Option Char → List Char → List Char
  | 0, _, l => l
  | _ + 1, _, [] => []
  | f + 1, prev, c :: rest =>
    let boundary := match prev with | none => true | some pc => !(isWordC pc)
    if boundary then
      match tryFiller fillerWords (c :: rest) with
      | some (lastc, rem) => remFillersGo f (some lastc) rem
      | none => c :: remFillersGo f (some c) rest
    else c :: remFillersGo f (some c) rest

/-- Pattern-3 cleanup: remove fillers, trim. -/
def pattern3Clean (part : List Char) : List Char :=
  trimC (remFillersGo part.length none part)

/-- Case-sensitive prefix test. -/
def startsWithC : List Char → List Char → Bool
  | [], _ => true
  | _ :: _, [] => false
  | p :: ps, c :: rest => if p = c then startsWithC ps rest else false

/-- JS `includes`: substring containment (true for the empty needle). -/
def containsSub (hay needle : List Char) : Bool := anySuffix (startsWithC needle) hay

/-- Lowercase a character list. -/
def toLowerL (l : List Char) : List Char := l.map toLowerJs

/-- Lowercase a string. -/
def toLowerS (s : String) : String := String.mk (toLowerL s.data)

/-- JS `name.substring(4).trim()`, used for the `The `-stripped variant. -/
def stripThe4 (l : List Char) : List Char := trimC (l.drop 4)

/-- Candidate plus its `The `-stripped variant when the lowercased name starts
with `the `. -/
def withTheVariant (name : List Char) : List (List Char) :=
  if startsWithC "the ".data (toLowerL name) then [name, stripThe4 name] else [name]

/-- The candidates contributed by one part: pattern 1 and pattern 2 always
contribute on success (subject to the length/word filters); pattern 3 applies
only when both failed. -/
def partCandidates (part : List Char) : List (List Char) :=
  let m1 := pattern1Match part
  let m2 := pattern2Match part
  let c1 : List (List Char) :=
    match m1 with
    | some g =>
      let nm := trimC g
      if nm.length > 2 then withTheVariant nm else []
    | none => []
  let c2 : List (List Char) :=
    match m2 with
    | some g =>
      let nm := trimC g
      if nm.length > 2 && !(containsSub (toLowerL nm) "found".data) then withTheVariant nm
      else []
    | none => []
  let c3 : List (List Char) :=
    match m1, m2 with
    | none, none =>
      let cleaned := pattern3Clean part
      if cleaned.length > 2 && !(containsSub (toLowerL cleaned) "chest".data) &&
          !(containsSub (toLowerL cleaned) "vendor".data) then
        withTheVariant cleaned
      else []
    | _, _ => []
  c1 ++ c2 ++ c3

/-- `extractLocationNames(locationText)`. -/
def extractLocationNames (locationText : List Char) : List (List Char) :=
  if locationText.isEmpty then []
  else ((splitParts locationText).map partCandidates).flatten

/-! ## The location tables and the act classifier
(`determineActFromLocation`, source lines 199-514) -/

/-- The static `LOCATION_TO_ACT` object, as an association list in its source
insertion order (`Object.entries` iterates string keys in insertion order). -/
def LOCATION_TO_ACT : List (String × Nat) :=
  [("Emerald Grove", 1), ("Druid Grove", 1), ("Grove", 1), ("The Hollow", 1),
   ("Hollow", 1), ("Shattered Sanctum", 1), ("Goblin Camp", 1), ("Blighted Village", 1),
   ("Waukeen" ++ aposS ++ "s Rest", 1), ("Risen Road", 1), ("Mountain Pass", 1),
   ("Underdark", 1), ("The Underdark", 1), ("Grymforge", 1),
   ("Creche Y" ++ aposS ++ "llek", 1), ("Rosymorn Monastery", 1),
   ("Rosymorn Monastery Trail", 1), ("Arcane Tower", 1), ("Myconid Colony", 1),
   ("Ebonlake Grotto", 1), ("Adamantine Forge", 1), ("Sussur Tree", 1),
   ("Selûnite Outpost", 1), ("Decrepit Village", 1), ("Festering Cove", 1),
   ("Beach", 1), ("Nautiloid", 1), ("Ravaged Beach", 1), ("Overgrown Ruins", 1),
   ("Roadside Cliffs", 1), ("Dank Crypt", 1), ("Defiled Temple", 1),
   ("Shadow-Cursed Lands", 2), ("Last Light Inn", 2), ("Moonrise Towers", 2),
   ("Reithwin Town", 2), ("House of Healing", 2), ("Gauntlet of Shar", 2),
   ("Thorm Mausoleum", 2), ("Temple of Shar", 2), ("Grand Mausoleum", 2),
   ("Ketheric Thorm", 2), ("Shadowfell", 2), ("Ruined Battlefield", 2),
   ("Baldur" ++ aposS ++ "s Gate", 3), ("Rivington", 3),
   ("Wyrm" ++ aposS ++ "s Crossing", 3), ("Lower City", 3), ("Upper City", 3),
   ("Crimson Palace", 3), ("House of Hope", 3), ("Cazador" ++ aposS ++ "s Palace", 3),
   ("Sorcerous Sundries", 3), ("Temple of Bhaal", 3), ("High Hall", 3),
   ("Cloister of Somber Embrace", 3), ("Cloister", 3), ("Somber Embrace", 3),
   ("Szarr Palace", 3), ("Murder Tribunal", 3), ("Forge of the Nine", 3),
   ("Wyrm" ++ aposS ++ "s Rock Fortress", 3), ("Highberry" ++ aposS ++ "s Home", 3)]

/-- The string-keyed properties inherited from `Object.prototype` by a plain
object literal; a bracket access `LOCATION_TO_ACT[k]` with one of these keys
yields the inherited (truthy, non-numeric) function or object instead of
`undefined`. -/
def protoProps : List String :=
  ["constructor", "hasOwnProperty", "isPrototypeOf", "propertyIsEnumerable",
   "toLocaleString", "toString", "valueOf", "__proto__", "__defineGetter__",
   "__defineSetter__", "__lookupGetter__", "__lookupSetter__"]

/-- Result of the act classifier.  `protoRef` records the case where the code
returns a value inherited from `Object.prototype` (a function or object, not
an act number). -/
inductive ActResult where
  | unknown : ActResult
  | act : Nat → ActResult
  | protoRef : ActResult
deriving DecidableEq

/-- JS bracket access `LOCATION_TO_ACT[name]` followed by the truthiness test:
an own property with a nonzero act is returned; otherwise a key naming an
`Object.prototype` member yields that inherited truthy value. -/
def jsGetLoc (name : String) : Option ActResult :=
  match LOCATION_TO_ACT.find? (fun e => e.fst == name) with
  | some e => if e.snd == 0 then none else some (.act e.snd)
  | none => if protoProps.contains name then some .protoRef else none

/-- JS `replace(/^the\s+/, '')` on a lowercased list. -/
def stripTheWs (l : List Char) : List Char :=
  if startsWithC "the".data l then
    let r := l.drop 3
    if (r.takeWhile isWsJs).isEmpty then l else r.dropWhile isWsJs
  else l

/-- The partial-match pass over the table for one candidate (source lines
408-424): containment either way, then containment of the `the`-stripped
forms. -/
def partialScan (lowerLocation : List Char) : List (String × Nat) → Option ActResult
  | [] => none
  | e :: rest =>
    let lowerKnown := toLowerL e.fst.data
    if containsSub lowerLocation lowerKnown || containsSub lowerKnown lowerLocation then
      some (.act e.snd)
    else
      let locNT := trimC (stripTheWs lowerLocation)
      let knownNT := trimC (stripTheWs lowerKnown)
      if !locNT.isEmpty && !knownNT.isEmpty &&
          (containsSub locNT knownNT || containsSub knownNT locNT) then
        some (.act e.snd)
      else partialScan lowerLocation rest

/-- The three lookup passes for one extracted candidate name: exact bracket
access, case-insensitive equality over the entries, then partial matching. -/
def lookupCandidate (cand : List Char) : Option ActResult :=
  match jsGetLoc (String.mk cand) with
  | some r => some r
  | none =>
    let lowerLocation := trimC (toLowerL cand)
    match LOCATION_TO_ACT.find? (fun e => toLowerS e.fst == String.mk lowerLocation) with
    | some e => some (.act e.snd)
    | none => partialScan lowerLocation LOCATION_TO_ACT

/-- Run the candidate lookups in candidate order. -/
def lookupByNames : List (List Char) → Option ActResult
  | [] => none
  | cand :: rest =>
    match lookupCandidate cand with
    | some r => some r
    | none => lookupByNames rest

/-- Exact remainder after a case-sensitive literal match. -/
def matchExactRem : List Char → List Char → Option (List Char)
  | [], l => some l
  | _ :: _, [] => none
  | p :: ps, c :: rest => if p = c then matchExactRem ps rest else none

/-- Word boundary before a needle occurrence: word-ness of the previous
character (non-word at the text edge) differs from that of the needle head. -/
def boundaryBefore (prev : Option Char) (needle : List Char) : Bool :=
  match needle with
  | [] => true
  | n0 :: _ =>
    match prev with
    | none => isWordC n0
    | some pc => xor (isWordC pc) (isWordC n0)

/-- Word boundary after a needle occurrence. -/
def afterBoundary (needle rem : List Char) : Bool :=
  let nl := needle.getLastD 'x'
  match rem with
  | [] => isWordC nl
  | c :: _ => xor (isWordC nl) (isWordC c)

/-- Scan for a `\bNEEDLE\b` occurrence. -/
def wbGo (needle : List Char) (prev : Option Char) : List Char → Bool
  | [] => false
  | c :: rest =>
    (boundaryBefore prev needle &&
      match matchExactRem needle (c :: rest) with
      | some rem => afterBoundary needle rem
      | none => false) ||
    wbGo needle (some c) rest

/-- `new RegExp('\\b' + needle + '\\b', 'i').test(hay)` for an already
lowercased hay and needle without regex metacharacters. -/
def wbContains (hay needle : List Char) : Bool :=
  if needle.isEmpty then true else wbGo needle none hay

/-- The full-text scan over the table (source lines 431-451): plain inclusion,
inclusion of the `the`-stripped key, word-boundary match of the stripped key. -/
def fullTextScan (lowerText : List Char) : List (String × Nat) → Option Nat
  | [] => none
  | e :: rest =>
    let lowerKnown := toLowerL e.fst.data
    if containsSub lowerText lowerKnown then some e.snd
    else
      let knownNT := trimC (stripTheWs lowerKnown)
      if !knownNT.isEmpty && containsSub lowerText knownNT then some e.snd
      else if !knownNT.isEmpty && wbContains lowerText knownNT then some e.snd
      else fullTextScan lowerText rest

/-- The looser keyword table of the fallback scan (source lines 455-483), in
insertion order. -/
def locationKeywords : List (String × Nat) :=
  [("underdark", 1), ("emerald grove", 1), ("druid grove", 1), ("the hollow", 1),
   ("hollow", 1), ("defiled temple", 1), ("grymforge", 1), ("mountain pass", 1),
   ("shadow-cursed", 2), ("shadow cursed", 2), ("shadowfell", 2),
   ("ruined battlefield", 2), ("moonrise", 2),
   ("baldur" ++ aposS ++ "s gate", 3), ("baldurs gate", 3), ("lower city", 3),
   ("upper city", 3), ("cloister of somber embrace", 3), ("cloister", 3),
   ("somber embrace", 3), ("szarr palace", 3), ("murder tribunal", 3),
   ("forge of the nine", 3), ("wyrm" ++ aposS ++ "s rock fortress", 3),
   ("wyrms rock fortress", 3), ("highberry" ++ aposS ++ "s home", 3),
   ("highberrys home", 3)]

/-- The keyword scan: inclusion, then (for multi-word keywords) a
word-boundary match. -/
def keywordScan (lowerText : List Char) : List (String × Nat) → Option Nat
  | [] => none
  | e :: rest =>
    let kw := e.fst.data
    if containsSub lowerText kw then some e.snd
    else if kw.contains ' ' && wbContains lowerText kw then some e.snd
    else keywordScan lowerText rest

/-- The act-word alternation `(one|two|three|1|2|3)` in order, each paired with
its act number. -/
def altActWords : List (String × Nat) :=
  [("one", 1), ("two", 2), ("three", 3), ("1", 1), ("2", 2), ("3", 3)]

/-- Try each act word (in alternation order) followed by the closing paren. -/
def tryActAlt : List (String × Nat) → List Char → Option Nat
  | [], _ => none
  | (w, n) :: ws, l =>
    match matchCI w.data l with
    | some rem =>
      match rem with
      | ')' :: _ => some n
      | _ => tryActAlt ws l
    | none => tryActAlt ws l

/-- The parenthesised act marker `\(act\s*(one|two|three|1|2|3)\)` at the head
of `l`. -/
def parenActAt (l : List Char) : Option Nat :=
  match l with
  | '(' :: r =>
    match matchCI "act".data r with
    | some r2 => tryActAlt altActWords (r2.dropWhile isWsJs)
    | none => none
  | _ => none

/-- Scan the whole text for the general act marker. -/
def generalActScan : List Char → Option Nat
  | [] => none
  | c :: rest =>
    match parenActAt (c :: rest) with
    | some n => some n
    | none => generalActScan rest

/-- The lazy `.*?\(act...` tail of the campsite pattern: the dot does not match
newlines, so the scan fails at a line break. -/
def dotLazyParen : List Char → Option Nat
  | [] => none
  | c :: rest =>
    match parenActAt (c :: rest) with
    | some n => some n
    | none => if c = '\n' || c = '\r' then none else dotLazyParen rest

/-- The campsite pattern `/campsite.*?\(act\s*(one|two|three|1|2|3)\)/i`:
each `campsite` occurrence is tried in turn. -/
def campsiteScan : List Char → Option Nat
  | [] => none
  | c :: rest =>
    match matchCI "campsite".data (c :: rest) with
    | some rem =>
      match dotLazyParen rem with
      | some n => some n
      | none => campsiteScan rest
    | none => campsiteScan rest

/-- `determineActFromLocation(locationText)` (the spec calls it `classifyAct`):
falsy input is unclassifiable; otherwise the resolution chain is the campsite
marker, the general act marker, table lookup of the extracted candidate names,
the full-text table scan, the keyword scan, the cloister/somber compound check,
and finally `undefined`. -/
def determineActFromLocation : Option String → ActResult
  | none => .unknown
  | some s =>
    if s = "" then .unknown
    else
      let t := trimC s.data
      match campsiteScan t with
      | some n => .act n
      | none =>
        match generalActScan t with
        | some n => .act n
        | none =>
          match lookupByNames (extractLocationNames t) with
          | some r => r
          | none =>
            let lower := toLowerL t
            match fullTextScan lower LOCATION_TO_ACT with
            | some n => .act n
            | none =>
              match keywordScan lower locationKeywords with
              | some n => .act n
              | none =>
                if containsSub lower "cloister".data && containsSub lower "somber".data then
                  .act 3
                else .unknown

/-! ## Specification-side composition for the refinement claim

The spec (section 4.4) describes the `rarity`/`uuid`/`description` path of the
content parser as: extract via the section-4.1 field extractor, clean via the
section-4.2 normalizer, and strip any stray trailing `}}`. -/

/-- Drop pairs of closing braces from the end of the value. -/
def stripTrailingBracesGo : Nat → List Char → List Char
  | 0, l => l
  | _ + 1, [] => []
  | f + 1, a :: rest =>
    if a = rbrace ∧ rest.take 1 = [rbrace] then stripTrailingBracesGo f (rest.drop 1)
    else a :: rest

/-- Strip stray trailing `}}` pairs, per the words of spec section 4.4. -/
def stripTrailingBraces (l : List Char) : List Char :=
  (stripTrailingBracesGo l.length l.reverse).reverse

/-- The extract-then-clean composition described by the spec for the three
named fields: section-4.1 extraction, section-4.2 cleaning, trailing-`}}`
stripping. -/
def specFieldPath (content f : String) : Option String :=
  (extractFieldValue content f).map
    (fun v => String.mk (stripTrailingBraces (cleanWikiText v).data))

/-! ## Claim theorems -/

/-- C1: on the markup `"|rarity = Common\n|uuid = abc"` the field extractor
does not stop the `rarity` value at the sibling field `|uuid =`: the sibling
lookahead regex demands whitespace after the pipe (`\s+`, source line 659,
contradicting the adjacent comment "| followed by optional whitespace"), so
the value runs to the end of the string.  The `uuid` extraction, whose value
is last, gives the expected `"abc"`. -/
theorem extractFieldValue_sibling_pipe_eval :
    extractFieldValue "|rarity = Common\n|uuid = abc" "rarity" =
      some "Common\n|uuid = abc" ∧
    extractFieldValue "|rarity = Common\n|uuid = abc" "uuid" = some "abc" := by
  decide

/-- C2: the depth counter does keep the value from being truncated at the
nested `\x7d\x7d` of `\x7b\x7bCharLink|Wyll\x7d\x7d` or at its internal pipe,
but the extracted value is not the claimed
`"Crafted by \x7b\x7bCharLink|Wyll\x7d\x7d."`: because the sibling-field
lookahead requires whitespace after the pipe, the value also swallows the
following `|rarity = Rare` field and runs to the end of the string. -/
theorem extractFieldValue_nested_template_eval :
    extractFieldValue
        "|description = Crafted by \x7b\x7bCharLink|Wyll\x7d\x7d.\n|rarity = Rare"
        "description" =
      some "Crafted by \x7b\x7bCharLink|Wyll\x7d\x7d.\n|rarity = Rare" ∧
    extractFieldValue
        "|description = Crafted by \x7b\x7bCharLink|Wyll\x7d\x7d.\n|rarity = Rare"
        "description" ≠
      some "Crafted by \x7b\x7bCharLink|Wyll\x7d\x7d." := by
  decide

/-- C3: with both fields present (short form first), extracting
`"where to find"` does not return the short field's own value `"DETAIL"`; the
sibling lookahead misses the `|where to find location =` start (no whitespace
after the pipe), so the returned value swallows the long field.  The name
match itself is correctly anchored: extracting `"where to find location"`
starts at the long field and returns `"LOC"`. -/
theorem extractFieldValue_short_long_eval :
    extractFieldValue "|where to find = DETAIL\n|where to find location = LOC"
        "where to find" =
      some "DETAIL\n|where to find location = LOC" ∧
    extractFieldValue "|where to find = DETAIL\n|where to find location = LOC"
        "where to find location" =
      some "LOC" := by
  decide

/-- C4 (counterexample): `parseWikiContent` does not compute `rarity` as the
extract-then-clean composition of the spec: on `"|rarity = [[Common]]"` the
parser's line-bounded regex path keeps the wiki link syntax, while the
spec composition resolves it. -/
theorem parseItem_rarity_not_specPath :
    (parseWikiContent "|rarity = [[Common]]" "T").rarity ≠
      specFieldPath "|rarity = [[Common]]" "rarity" := by
  decide

/-- C4 (amended): the three named fields follow a line-bounded regex capture
(`[^\n|\x7d]+` after the field start) with per-field cleanup, which agrees
with the spec's extract-then-clean composition on plain one-line values such
as `"|rarity = Common"` but diverges on values with wiki links (kept by the
parser, resolved by the composition) and on values with nested templates (cut
at the first pipe by the parser, delimited structurally by the extractor). -/
theorem parseItem_simple_regex_path :
    (parseWikiContent "|rarity = Common" "T").rarity = some "Common" ∧
    specFieldPath "|rarity = Common" "rarity" = some "Common" ∧
    (parseWikiContent "|rarity = [[Common]]" "T").rarity = some "[[Common]]" ∧
    specFieldPath "|rarity = [[Common]]" "rarity" = some "Common" ∧
    (parseWikiContent
        "|description = Crafted by \x7b\x7bCharLink|Wyll\x7d\x7d.\n|rarity = Rare"
        "T").description =
      some "Crafted by \x7b\x7bCharLink" ∧
    specFieldPath
        "|description = Crafted by \x7b\x7bCharLink|Wyll\x7d\x7d.\n|rarity = Rare"
        "description" =
      some "Crafted by \x7b\x7bCharLink|Wyll\x7d\x7d. |rarity = Rare" := by
  decide

/-- C6: `classifyAct "Found near the Cloister, in the Somber wing"` is 1, not
3.  The name heuristic extracts the candidate `"the"` (from "near the …" /
"in the …"), and the partial-match pass accepts it because `"the hollow"`
contains `"the"`, returning Act 1 before the cloister/somber compound check is
ever reached. -/
theorem determineAct_compound_eval :
    determineActFromLocation (some "Found near the Cloister, in the Somber wing") =
      ActResult.act 1 := by
  decide

/-- C7 (counterexample): with numbered location fields at indices 2 and 6 only
(indices 3, 4 and 5 all missing), the scan does not stop after those three
consecutive no-match indices: the index-6 entry is still captured, because the
look-ahead from each missing index looks three further indices ahead. -/
theorem locationScan_gap3_captured :
    (parseWikiContent "|where to find2 = A\n| where to find6 = B" "T").where_to_find =
      some "A | B" := by
  decide

/-- C7 (amended): the numbered scan tolerates gaps of up to three consecutive
missing indices (fields at 2 and 5 and fields at 2 and 6 are both fully
captured) and stops at a missing index exactly when the three following
indices also miss, i.e. after four consecutive missing indices (fields at 2
and 7: the index-7 entry is dropped). -/
theorem locationScan_gap_behavior :
    (parseWikiContent "|where to find2 = A\n| where to find5 = B" "T").where_to_find =
      some "A | B" ∧
    (parseWikiContent "|where to find2 = A\n| where to find6 = B" "T").where_to_find =
      some "A | B" ∧
    (parseWikiContent "|where to find2 = A\n| where to find7 = B" "T").where_to_find =
      some "A" := by
  decide

/-- C9: `classifyAct "constructor"` returns neither an act number nor
`undefined`: the extracted candidate name `"constructor"` reaches the exact
table lookup `LOCATION_TO_ACT[locationName]`, which finds the `constructor`
property inherited from `Object.prototype`; that function object is truthy and
is returned, contradicting the declared `number | undefined` contract. -/
theorem determineAct_proto_eval :
    determineActFromLocation (some "constructor") = ActResult.protoRef ∧
    ActResult.protoRef ≠ ActResult.unknown ∧
    (∀ n : Nat, ActResult.protoRef ≠ ActResult.act n) := by
  refine ⟨by decide, by decide, fun n h => ActResult.noConfusion h⟩

/-- C10: the parser is total, the `name` of the result is always exactly the
given title, and on markup from which nothing can be extracted (for example
the empty markup) the result is the bare record with every optional field
absent. -/
theorem parseWikiContent_name_total :
    ∀ content title : String,
      (parseWikiContent content title).name = title ∧
      parseWikiContent "" title =
        { name := title, rarity := none, uuid := none, description := none,
          where_to_find := none } := by
  intro content title
  exact ⟨rfl, rfl⟩

/-- C8: the item classifier returns false on whitespace-only markup, true on
markup opening an item-type template such as `\x7b\x7bWeaponPage\x7d\x7d`, and
false whenever none of the template, category and item-field signals is
present — in particular a `uuid=`/`uid=` field alone never suffices. -/
theorem isEquippableItem_props :
    (∀ s : String, trimS s = "" → isEquippableItem s = false) ∧
    isEquippableItem "\x7b\x7bWeaponPage\x7d\x7d\n|rarity=Rare" = true ∧
    (∀ s : String, hasItemTemplate s = false → hasItemCategory s = false →
      hasItemFields s = false → isEquippableItem s = false) := by
  refine ⟨fun s h => ?_, by decide, fun s h1 h2 h3 => ?_⟩
  · simp [isEquippableItem, h]
  · by_cases he : trimS s = ""
    · simp [isEquippableItem, he]
    · simp [isEquippableItem, he, h1, h2, h3]

/-- C8 witness: the classifier evaluated through the theorem at the concrete
whitespace-only markup `"   "` and at the uuid-only markup `"|uuid=x"`. -/
theorem isEquippableItem_props_witness :
    (trimS "   " = "" ∧ isEquippableItem "   " = false) ∧
    (hasItemTemplate "|uuid=x" = false ∧ hasItemCategory "|uuid=x" = false ∧
      hasItemFields "|uuid=x" = false ∧ isEquippableItem "|uuid=x" = false) :=
  ⟨⟨by decide, isEquippableItem_props.1 "   " (by decide)⟩,
   ⟨by decide, by decide, by decide,
    isEquippableItem_props.2.2 "|uuid=x" (by decide) (by decide) (by decide)⟩⟩

/-! ## Idempotence development for the text normalizer (claim C5)

The normalizer is not idempotent in general (nested wiki links re-resolve on a
second pass); the lemmas below establish idempotence on inputs free of link
and HTML syntax, i.e. containing neither `[` nor `<`. -/

/-- Dropping a prefix twice is the same as dropping it once. -/
theorem dropWhile_pair (p : Char → Bool) (l : List Char) :
    List.dropWhile p (List.dropWhile p l) = List.dropWhile p l := by
  induction l with
  | nil => simp
  | cons c rest ih =>
    by_cases h : p c
    · simp [List.dropWhile_cons, h, ih]
    · simp [List.dropWhile_cons, h]

/-- The head of a `dropWhile` result falsifies the predicate. -/
theorem dropWhile_head_false (p : Char → Bool) :
    ∀ (l : List Char) (c : Char) (t : List Char), l.dropWhile p = c :: t → p c = false := by
  intro l
  induction l with
  | nil => intro c t h; simp at h
  | cons a rest ih =>
    intro c t h
    by_cases ha : p a
    · rw [List.dropWhile_cons, if_pos ha] at h
      exact ih c t h
    · rw [List.dropWhile_cons, if_neg ha] at h
      cases h
      simpa using ha

/-- `dropWhile` is the identity when the head (if any) falsifies the
predicate. -/
theorem dropWhile_eq_self_of_head (p : Char → Bool) (l : List Char)
    (h : ∀ c t, l = c :: t → p c = false) : l.dropWhile p = l := by
  cases l with
  | nil => rfl
  | cons a rest =>
    have := h a rest rfl
    simp [List.dropWhile_cons, this]

/-- The trailing trim produces a prefix of its input. -/
theorem trimR_front (l : List Char) : trimR l <+: l := by
  have h : l.reverse.dropWhile isWsJs <:+ l.reverse := List.dropWhile_suffix _
  have h2 := Iff.mpr List.reverse_prefix h
  rw [List.reverse_reverse] at h2
  exact h2

/-- The trailing trim is idempotent. -/
theorem trimR_trimR (l : List Char) : trimR (trimR l) = trimR l := by
  simp [trimR, List.reverse_reverse, dropWhile_pair]

/-- Leading trim after the two-sided trim changes nothing. -/
theorem trimL_trimR_trimL (l : List Char) : trimL (trimR (trimL l)) = trimR (trimL l) := by
  apply dropWhile_eq_self_of_head
  intro c t h
  obtain ⟨u, hu⟩ := trimR_front (trimL l)
  rw [h] at hu
  exact dropWhile_head_false isWsJs l c (t ++ u) (by simpa using hu.symm)

/-- The two-sided trim is idempotent. -/
theorem trimC_trimC (l : List Char) : trimC (trimC l) = trimC l := by
  show trimR (trimL (trimR (trimL l))) = trimR (trimL l)
  rw [trimL_trimR_trimL, trimR_trimR]

/-- Comment removal scans are the identity on `<`-free text. -/
theorem remCommentsGo_no_lt : ∀ (f : Nat) (l : List Char), '<' ∉ l → remCommentsGo f l = l := by
  intro f
  induction f with
  | zero => intro l _; rfl
  | succ f ih =>
    intro l h
    cases l with
    | nil => rfl
    | cons c rest =>
      have hc : ¬(c = '<') := fun e => h (by rw [← e]; exact List.mem_cons_self c rest)
      have h2 : '<' ∉ rest := fun m => h (List.mem_cons_of_mem c m)
      simp only [remCommentsGo]
      rw [if_neg (by simp [hc]), ih rest h2]

/-- Tag removal scans are the identity on `<`-free text. -/
theorem remTagsGo_no_lt : ∀ (f : Nat) (l : List Char), '<' ∉ l → remTagsGo f l = l := by
  intro f
  induction f with
  | zero => intro l _; rfl
  | succ f ih =>
    intro l h
    cases l with
    | nil => rfl
    | cons c rest =>
      have hc : ¬(c = '<') := fun e => h (by rw [← e]; exact List.mem_cons_self c rest)
      have h2 : '<' ∉ rest := fun m => h (List.mem_cons_of_mem c m)
      simp only [remTagsGo]
      rw [if_neg hc, ih rest h2]

/-- Link resolution scans are the identity on `[`-free text. -/
theorem linksGo_no_lb : ∀ (f : Nat) (l : List Char), '[' ∉ l → linksGo f l = l := by
  intro f
  induction f with
  | zero => intro l _; rfl
  | succ f ih =>
    intro l h
    cases l with
    | nil => rfl
    | cons c rest =>
      have hc : ¬(c = '[') := fun e => h (by rw [← e]; exact List.mem_cons_self c rest)
      have h2 : '[' ∉ rest := fun m => h (List.mem_cons_of_mem c m)
      simp only [linksGo]
      rw [if_neg (by simp [hc]), ih rest h2]

/-- Run collapsing is the identity when no character satisfies the
predicate. -/
theorem collapseGo_no_p (p : Char → Bool) (rep : Char) :
    ∀ (l : List Char), (∀ c ∈ l, p c = false) → ∀ b, collapseGo p rep b l = l := by
  intro l
  induction l with
  | nil => intro _ b; rfl
  | cons c rest ih =>
    intro h b
    have hc : p c = false := h c (List.mem_cons_self c rest)
    have h2 : ∀ c ∈ rest, p c = false := fun d hd => h d (List.mem_cons_of_mem c hd)
    simp [collapseGo, hc, ih h2 false]

/-- Members of a `dropWhile` result are members of the input. -/
theorem mem_of_mem_dropWhile (p : Char → Bool) :
    ∀ {l : List Char} {c : Char}, c ∈ l.dropWhile p → c ∈ l := by
  intro l
  induction l with
  | nil => intro c h; simp at h
  | cons a rest ih =>
    intro c h
    by_cases ha : p a
    · rw [List.dropWhile_cons, if_pos ha] at h
      exact List.mem_cons_of_mem a (ih h)
    · rwa [List.dropWhile_cons, if_neg ha] at h

/-- Members of a trimmed list are members of the input. -/
theorem mem_trimC {l : List Char} {c : Char} (h : c ∈ trimC l) : c ∈ l := by
  have h1 : c ∈ trimL l := by
    have := List.mem_reverse.mpr h
    rw [trimC, trimR, List.reverse_reverse] at this
    exact List.mem_reverse.mp (mem_of_mem_dropWhile isWsJs this)
  exact mem_of_mem_dropWhile isWsJs h1

/-- Members of a collapsed list are the replacement character or surviving
non-run members of the input. -/
theorem mem_collapseGo (p : Char → Bool) (rep : Char) :
    ∀ (l : List Char) (b : Bool) (c : Char),
      c ∈ collapseGo p rep b l → c = rep ∨ (c ∈ l ∧ p c = false) := by
  intro l
  induction l with
  | nil => intro b c h; simp [collapseGo] at h
  | cons a rest ih =>
    intro b c h
    by_cases hp : p a
    · cases b with
      | true =>
        simp only [collapseGo, hp, if_true] at h
        rcases ih true c h with h | ⟨h1, h2⟩
        · exact Or.inl h
        · exact Or.inr ⟨List.mem_cons_of_mem a h1, h2⟩
      | false =>
        simp only [collapseGo, hp, if_true] at h
        rcases List.mem_cons.mp h with h | h
        · exact Or.inl h
        · rcases ih true c h with h | ⟨h1, h2⟩
          · exact Or.inl h
          · exact Or.inr ⟨List.mem_cons_of_mem a h1, h2⟩
    · have hpf : p a = false := by simpa using hp
      simp only [collapseGo, hpf, Bool.false_eq_true, if_false] at h
      rcases List.mem_cons.mp h with h | h
      · exact Or.inr ⟨by rw [h]; exact List.mem_cons_self a rest, by rwa [h]⟩
      · rcases ih false c h with h | ⟨h1, h2⟩
        · exact Or.inl h
        · exact Or.inr ⟨List.mem_cons_of_mem a h1, h2⟩

/-- The no-two-adjacent-whitespace relation satisfied by collapsed text. -/
def RWs : Char → Char → Prop := fun a b => isWsJs a = false ∨ isWsJs b = false

/-- Whitespace collapsing yields text with no two adjacent whitespace
characters; the second conjunct records that in the in-run state the output
can follow any character. -/
theorem collapseGo_chain (l : List Char) :
    List.Chain' RWs (collapseGo isWsJs ' ' false l) ∧
    ∀ a : Char, List.Chain' RWs (a :: collapseGo isWsJs ' ' true l) := by
  induction l with
  | nil => exact ⟨List.chain'_nil, fun a => List.chain'_singleton a⟩
  | cons c rest ih =>
    by_cases hp : isWsJs c = true
    · constructor
      · simp only [collapseGo, hp, if_true]
        exact ih.2 ' '
      · intro a
        simp only [collapseGo, hp, if_true]
        exact ih.2 a
    · have hpf : isWsJs c = false := by simpa using hp
      have hinner : List.Chain' RWs (c :: collapseGo isWsJs ' ' false rest) :=
        List.chain'_cons'.mpr ⟨fun y _ => Or.inl hpf, ih.1⟩
      constructor
      · simp only [collapseGo, hpf, Bool.false_eq_true, if_false]
        exact hinner
      · intro a
        simp only [collapseGo, hpf, Bool.false_eq_true, if_false]
        exact List.chain'_cons'.mpr ⟨fun y hy => by
          simp only [List.head?_cons, Option.mem_def, Option.some.injEq] at hy
          exact Or.inr (by rw [← hy]; exact hpf), hinner⟩

/-- Whitespace collapsing is the identity on text with no two adjacent
whitespace characters whose every whitespace character is a plain space. -/
theorem collapseGo_eq_self (l : List Char) (hch : List.Chain' RWs l)
    (hsp : ∀ c ∈ l, isWsJs c = true → c = ' ') :
    collapseGo isWsJs ' ' false l = l ∧
    ((∀ c t, l = c :: t → isWsJs c = false) → collapseGo isWsJs ' ' true l = l) := by
  induction l with
  | nil => exact ⟨rfl, fun _ => rfl⟩
  | cons c rest ih =>
    have hch' : List.Chain' RWs rest := hch.tail
    have hsp' : ∀ d ∈ rest, isWsJs d = true → d = ' ' :=
      fun d hd => hsp d (List.mem_cons_of_mem c hd)
    obtain ⟨ih1, ih2⟩ := ih hch' hsp'
    by_cases hp : isWsJs c = true
    · have hc : c = ' ' := hsp c (List.mem_cons_self c rest) hp
      have hrest_head : ∀ d t, rest = d :: t → isWsJs d = false := by
        intro d t hdt
        subst hdt
        rcases (List.chain'_cons.mp hch).1 with h1 | h2
        · rw [hp] at h1; cases h1
        · exact h2
      constructor
      · have htr : collapseGo isWsJs ' ' true rest = rest := ih2 hrest_head
        simp only [collapseGo, hp, if_true, Bool.false_eq_true, if_false, htr]
        rw [hc]
      · intro hhead
        have := hhead c rest rfl
        rw [hp] at this; cases this
    · have hpf : isWsJs c = false := by simpa using hp
      refine ⟨?_, fun _ => ?_⟩ <;>
        simp only [collapseGo, hpf, Bool.false_eq_true, if_false, ih1]

/-- Trimming preserves the no-adjacent-whitespace property. -/
theorem chain_trimC (l : List Char) (h : List.Chain' RWs l) :
    List.Chain' RWs (trimC l) :=
  List.Chain'.prefix (List.Chain'.suffix h (List.dropWhile_suffix isWsJs)) (trimR_front (trimL l))

/-- Idempotence of the normalizer core on inputs without `[` and `<`. -/
theorem cleanCore_idem (l : List Char) (h1 : '[' ∉ l) (h2 : '<' ∉ l) :
    cleanCore (cleanCore l) = cleanCore l := by
  by_cases hl : l.isEmpty
  · rw [List.isEmpty_iff.mp hl]
    rfl
  · have h1t : '[' ∉ trimC l := fun m => h1 (mem_trimC m)
    have h2t : '<' ∉ trimC l := fun m => h2 (mem_trimC m)
    have e1 : removeHTMLComments (trimC l) = trimC l := by
      unfold removeHTMLComments
      rw [remCommentsGo_no_lt _ _ h2t, trimC_trimC]
    have e2 : remTags (trimC l) = trimC l := remTagsGo_no_lt _ _ h2t
    have e3 : linksApply (trimC l) = trimC l := linksGo_no_lb _ _ h1t
    have efirst :
        cleanCore l = trimC (collapseRuns isWsJs ' ' (collapseRuns isNl ' ' (trimC l))) := by
      unfold cleanCore
      rw [if_neg hl, e1, e2, e3]
    set o := trimC (collapseRuns isWsJs ' ' (collapseRuns isNl ' ' (trimC l))) with ho
    have hmemo : ∀ c ∈ o, c = ' ' ∨ isWsJs c = false := by
      intro c hc
      rcases mem_collapseGo isWsJs ' ' _ _ c (mem_trimC hc) with h | ⟨_, hf⟩
      · exact Or.inl h
      · exact Or.inr hf
    have hspo : ∀ c ∈ o, isWsJs c = true → c = ' ' := by
      intro c hc hw
      rcases hmemo c hc with h | h
      · exact h
      · rw [hw] at h; cases h
    have hnlo : ∀ c ∈ o, isNl c = false := by
      intro c hc
      rcases hmemo c hc with h | h
      · rw [h]; rfl
      · have : ¬(c = '\n') := fun e => by rw [e] at h; cases h
        simp [isNl, this]
    have hlift : ∀ c ∈ o, c = ' ' ∨ c ∈ l := by
      intro c hc
      rcases mem_collapseGo isWsJs ' ' _ _ c (mem_trimC hc) with h | ⟨h4, _⟩
      · exact Or.inl h
      · rcases mem_collapseGo isNl ' ' _ _ c h4 with h | ⟨h3, _⟩
        · exact Or.inl h
        · exact Or.inr (mem_trimC h3)
    have hlt_o : '<' ∉ o := by
      intro hc
      rcases hlift '<' hc with h | h
      · cases h
      · exact h2 h
    have hlb_o : '[' ∉ o := by
      intro hc
      rcases hlift '[' hc with h | h
      · cases h
      · exact h1 h
    have hcho : List.Chain' RWs o := chain_trimC _ (collapseGo_chain _).1
    have etro : trimC o = o := by
      rw [ho]; exact trimC_trimC _
    by_cases hoe : o.isEmpty
    · rw [efirst, List.isEmpty_iff.mp hoe]
      rfl
    · have e1o : removeHTMLComments o = o := by
        unfold removeHTMLComments
        rw [remCommentsGo_no_lt _ _ hlt_o, etro]
      have e2o : remTags o = o := remTagsGo_no_lt _ _ hlt_o
      have e3o : linksApply o = o := linksGo_no_lb _ _ hlb_o
      have e4o : collapseRuns isNl ' ' o = o := collapseGo_no_p isNl ' ' o hnlo false
      have e5o : collapseRuns isWsJs ' ' o = o := (collapseGo_eq_self o hcho hspo).1
      calc cleanCore (cleanCore l) = cleanCore o := by rw [efirst]
        _ = o := by
            unfold cleanCore
            rw [if_neg hoe, etro, e1o, e2o, e3o, e4o, e5o, etro]
        _ = cleanCore l := efirst.symm

/-- C5 (counterexample): the normalizer is not idempotent.  On the
nested-link input `"[[ [[a]] ]]"` one pass yields `"[[a ]]"`, whose residual
link syntax a second pass resolves to `"a"`. -/
theorem cleanWikiText_not_idempotent :
    cleanWikiText (cleanWikiText "[[ [[a]] ]]") ≠ cleanWikiText "[[ [[a]] ]]" := by
  decide

/-- C5 (amended): the normalizer is idempotent on every input containing
neither `[` nor `<`, i.e. free of wiki-link and HTML syntax. -/
theorem cleanWikiText_idem (s : String) (h1 : '[' ∉ s.data) (h2 : '<' ∉ s.data) :
    cleanWikiText (cleanWikiText s) = cleanWikiText s :=
  congrArg String.mk (cleanCore_idem s.data h1 h2)

/-- C5 witness: the amended idempotence applied to the concrete markup-free
input `"a  b\n\tc -- d"`. -/
theorem cleanWikiText_idem_witness :
    '[' ∉ ("a  b\n\tc -- d" : String).data ∧ '<' ∉ ("a  b\n\tc -- d" : String).data ∧
    cleanWikiText (cleanWikiText "a  b\n\tc -- d") = cleanWikiText "a  b\n\tc -- d" :=
  ⟨by decide, by decide, cleanWikiText_idem "a  b\n\tc -- d" (by decide) (by decide)⟩
